import Mathlib

/-!
Verification of the ssh package core (src/ssh.go) against its
natural-language specification: shallow embedding of the declarations and
of KeysEqual, Serve, ListenAndServe and Handle, plus spec-modelled parts
for code the repository does not ship under src/ (the Server struct,
SetOption, the accept loop, and window-resize handling).
-/

namespace GliderSSH

/-- Bytes are modelled as natural numbers (Go byte values). -/
abbrev Byte := Nat

/-- A public key as seen by KeysEqual: the transport library's PublicKey
interface exposes a Marshal method producing the wire serialization, and
KeysEqual looks at nothing else, so a key is modelled by its marshalled
bytes. -/
structure PublicKey where
  Marshal : List Byte
deriving DecidableEq

/-- The loop of Go crypto/subtle.ConstantTimeCompare: OR together the XOR
of every byte pair of the two (equal-length) slices. -/
def ctLoop (x y : List Byte) : Byte :=
  (x.zip y).foldl (fun v p => v ||| (p.1 ^^^ p.2)) 0

/-- Go crypto/subtle.ConstantTimeCompare: 0 when the lengths differ,
otherwise 1 exactly when the OR of all byte XORs is zero. -/
def constantTimeCompare (x y : List Byte) : Nat :=
  if x.length = y.length then (if ctLoop x y = 0 then 1 else 0) else 0

/-- KeysEqual from src/ssh.go lines 92-102: nil keys (modelled as none)
are never equal to anything; otherwise the marshalled forms are compared
by length and then by constant-time comparison. -/
def KeysEqual (ak bk : Option PublicKey) : Bool :=
  match ak, bk with
  | none, _ => false
  | some _, none => false
  | some akv, some bkv =>
    let a := akv.Marshal
    let b := bkv.Marshal
    decide (a.length = b.length) && decide (constantTimeCompare a b = 1)

/-- The comparison loop instrumented with a step counter: same
accumulator, plus one cost unit per byte pair processed. -/
def ctLoopInstr (x y : List Byte) : Byte × Nat :=
  (x.zip y).foldl (fun acc p => (acc.1 ||| (p.1 ^^^ p.2), acc.2 + 1)) (0, 0)

/-- constantTimeCompare instrumented with its loop-iteration count; the
first component is the comparison result, the second the number of byte
pairs the loop touched. -/
def constantTimeCompareInstr (x y : List Byte) : Nat × Nat :=
  if x.length = y.length then
    ((if (ctLoopInstr x y).1 = 0 then 1 else 0), (ctLoopInstr x y).2)
  else (0, 0)

theorem nat_or_eq_zero {x y : Nat} : x ||| y = 0 ↔ x = 0 ∧ y = 0 := by
  constructor
  · intro h
    have hb : ∀ i, x.testBit i = false ∧ y.testBit i = false := by
      intro i
      have hc := congrArg (fun n => n.testBit i) h
      simp only [Nat.testBit_or, Nat.zero_testBit, Bool.or_eq_false_iff] at hc
      exact hc
    constructor
    · exact Nat.eq_of_testBit_eq fun i => by simp [(hb i).1]
    · exact Nat.eq_of_testBit_eq fun i => by simp [(hb i).2]
  · rintro ⟨rfl, rfl⟩
    rfl

theorem ctFold_eq_zero (l : List (Byte × Byte)) (v : Byte) :
    l.foldl (fun v p => v ||| (p.1 ^^^ p.2)) v = 0 ↔ v = 0 ∧ ∀ p ∈ l, p.1 = p.2 := by
  induction l generalizing v with
  | nil => simp
  | cons a l ih =>
    simp only [List.foldl_cons, ih, nat_or_eq_zero, Nat.xor_eq_zero,
      List.forall_mem_cons]
    tauto

theorem zip_forall_eq (x : List Byte) (y : List Byte) (h : x.length = y.length) :
    (∀ p ∈ x.zip y, p.1 = p.2) ↔ x = y := by
  induction x generalizing y with
  | nil =>
    cases y with
    | nil => simp
    | cons b ys => simp at h
  | cons a xs ih =>
    cases y with
    | nil => simp at h
    | cons b ys =>
      have h2 : xs.length = ys.length := by simpa using h
      constructor
      · intro hp
        have ha : a = b := hp (a, b) (by rw [List.zip_cons_cons]; exact List.mem_cons_self _ _)
        have hx : xs = ys := (ih ys h2).mp
          (fun p hpin => hp p (by rw [List.zip_cons_cons]; exact List.mem_cons_of_mem _ hpin))
        rw [ha, hx]
      · intro he
        cases he
        intro p hp
        rw [List.zip_cons_cons] at hp
        rcases List.mem_cons.mp hp with h1 | h1
        · rw [h1]
        · exact (ih xs rfl).mpr rfl p h1

theorem constantTimeCompare_eq_one (x y : List Byte) :
    constantTimeCompare x y = 1 ↔ x = y := by
  by_cases h : x.length = y.length
  · have hz : ctLoop x y = 0 ↔ x = y := by
      unfold ctLoop
      rw [ctFold_eq_zero]
      constructor
      · rintro ⟨-, hp⟩
        exact (zip_forall_eq x y h).mp hp
      · intro he
        exact ⟨rfl, (zip_forall_eq x y h).mpr he⟩
    simp only [constantTimeCompare, if_pos h]
    by_cases h0 : ctLoop x y = 0
    · rw [if_pos h0]
      simp [hz.mp h0]
    · have : x ≠ y := fun hxy => h0 (hz.mpr hxy)
      simp [h0, this]
  · have : x ≠ y := fun hxy => h (by rw [hxy])
    simp [constantTimeCompare, h, this]

theorem keysEqual_some_iff (a b : Option PublicKey) :
    KeysEqual a b = true ↔
      ∃ x y, a = some x ∧ b = some y ∧ x.Marshal = y.Marshal := by
  cases a with
  | none => simp [KeysEqual]
  | some x =>
    cases b with
    | none => simp [KeysEqual]
    | some y =>
      simp only [KeysEqual, Bool.and_eq_true, decide_eq_true_eq,
        constantTimeCompare_eq_one]
      constructor
      · rintro ⟨-, hm⟩
        exact ⟨x, y, rfl, rfl, hm⟩
      · rintro ⟨x2, y2, hx, hy, hm⟩
        cases Option.some.inj hx
        cases Option.some.inj hy
        exact ⟨by rw [hm], hm⟩

theorem ctFoldInstr_snd (l : List (Byte × Byte)) (v : Byte) (c : Nat) :
    (l.foldl (fun acc p => (acc.1 ||| (p.1 ^^^ p.2), acc.2 + 1)) (v, c)).2
      = c + l.length := by
  induction l generalizing v c with
  | nil => simp
  | cons a l ih =>
    simp only [List.foldl_cons, ih, List.length_cons]
    omega

theorem ctFoldInstr_fst (l : List (Byte × Byte)) (v : Byte) (c : Nat) :
    (l.foldl (fun acc p => (acc.1 ||| (p.1 ^^^ p.2), acc.2 + 1)) (v, c)).1
      = l.foldl (fun v p => v ||| (p.1 ^^^ p.2)) v := by
  induction l generalizing v c with
  | nil => rfl
  | cons a l ih => simp only [List.foldl_cons, ih]

theorem constantTimeCompareInstr_fst (x y : List Byte) :
    (constantTimeCompareInstr x y).1 = constantTimeCompare x y := by
  unfold constantTimeCompareInstr constantTimeCompare
  by_cases h : x.length = y.length
  · rw [if_pos h, if_pos h]
    simp only [ctLoopInstr, ctLoop, ctFoldInstr_fst]
  · rw [if_neg h, if_neg h]

theorem constantTimeCompareInstr_snd (x y : List Byte) :
    (constantTimeCompareInstr x y).2
      = if x.length = y.length then min x.length y.length else 0 := by
  unfold constantTimeCompareInstr
  by_cases h : x.length = y.length
  · rw [if_pos h, if_pos h]
    simp only [ctLoopInstr, ctFoldInstr_snd, Nat.zero_add, List.length_zip]
  · rw [if_neg h, if_neg h]

/-- Go: type Signal string (src/ssh.go line 8). -/
abbrev Signal := String

/-- POSIX signals as listed in RFC 4254 Section 6.10 (src/ssh.go 11-25). -/
def SIGABRT : Signal := "ABRT"

def SIGALRM : Signal := "ALRM"

def SIGFPE : Signal := "FPE"

def SIGHUP : Signal := "HUP"

def SIGILL : Signal := "ILL"

def SIGINT : Signal := "INT"

def SIGKILL : Signal := "KILL"

def SIGPIPE : Signal := "PIPE"

def SIGQUIT : Signal := "QUIT"

def SIGSEGV : Signal := "SEGV"

def SIGTERM : Signal := "TERM"

def SIGUSR1 : Signal := "USR1"

def SIGUSR2 : Signal := "USR2"

/-- The enumerated signal vocabulary, in source order. -/
def signalVocabulary : List Signal :=
  [SIGABRT, SIGALRM, SIGFPE, SIGHUP, SIGILL, SIGINT, SIGKILL, SIGPIPE,
   SIGQUIT, SIGSEGV, SIGTERM, SIGUSR1, SIGUSR2]

/-- Window from src/ssh.go lines 49-52; Width and Height are Go ints
(signed integers, no range constraint in the type). -/
structure Window where
  Width : Int
  Height : Int
deriving DecidableEq

/-- Pty from src/ssh.go lines 55-57: the struct holds a Window and nothing
else (this version of the code has no terminal-type field). -/
structure Pty where
  Window : Window
deriving DecidableEq

/-- An abstract handler value; Go Handler values are functions, compared
here only by identity, with Go nil modelled as Option.none at use sites. -/
structure HandlerFn where
  tok : Nat
deriving DecidableEq

/-- The package-level mutable state of src/ssh.go: DefaultHandler (line 28)
is its only package variable. The rest field stands for every piece of
process state outside that variable, so that frame effects are
expressible. -/
structure PkgState (α : Type) where
  DefaultHandler : Option HandlerFn
  rest : α

/-- Handle from src/ssh.go lines 87-89: registers the handler as the
DefaultHandler; the global assignment is embedded as a state
transformer. -/
def Handle (handler : Option HandlerFn) (s : PkgState α) : PkgState α :=
  { s with DefaultHandler := handler }

/-- Errors returned by options, listeners and the serve loop. -/
abbrev Err := String

/-- An abstract listener handle (net.Listener identity). -/
abbrev Listener := Nat

/-- Modelled from the spec: the Server struct itself is not under src/;
the spec lists its state as the bound address, the Handler, and the
registered callback slots (PublicKeyHandler, PasswordHandler,
PermissionsCallback, PtyCallback), each nullable. -/
structure Server where
  Addr : String
  Handler : Option HandlerFn
  PublicKeyHandler : Option Nat
  PasswordHandler : Option Nat
  PermissionsCallback : Option Nat
  PtyCallback : Option Nat
deriving DecidableEq

/-- The Go zero value of Server. -/
def emptyServer : Server := ⟨"", none, none, none, none, none⟩

/-- Go: type Option func(*Server) error (src/ssh.go line 31), embedded as
a function from the server to an error or the updated server. Named
ServerOption because Option is taken in Lean. -/
abbrev ServerOption := Server → Except Err Server

/-- Modelled from the spec: Server.SetOption is not under src/; the spec's
configuration surface applies each option to the server being configured,
and any option may fail validation. -/
def SetOption (srv : Server) (o : ServerOption) : Except Err Server :=
  o srv

/-- The option-application loop shared by Serve and ListenAndServe
(src/ssh.go lines 65-69 and 78-82): apply the options in the order given,
returning the first error. -/
def applyOptions (srv : Server) : List ServerOption → Except Err Server
  | [] => .ok srv
  | o :: os =>
    match SetOption srv o with
    | .error e => .error e
    | .ok srv2 => applyOptions srv2 os

/-- How a call to Serve or ListenAndServe resolves: either startup aborted
with an error before any connection could be accepted, or the accept loop
ran with the given configured server and listener and returned res (the Go
functions return only the error value; the extra structure records whether
serving began). -/
inductive ServeOutcome where
  | aborted (e : Err)
  | ran (srv : Server) (l : Listener) (res : Option Err)

/-- The error value the Go function actually returns. -/
def ServeOutcome.result : ServeOutcome → Option Err
  | .aborted e => some e
  | .ran _ _ res => res

/-- Serve from src/ssh.go lines 63-71: build a fresh Server carrying the
handler, apply the options in order (first error aborts), then run the
accept loop srv.Serve(l). The accept loop itself is not under src/, so it
is an explicit parameter serveLoop. -/
def Serve (serveLoop : Server → Listener → Option Err) (l : Listener)
    (handler : Option HandlerFn) (options : List ServerOption) : ServeOutcome :=
  match applyOptions { emptyServer with Handler := handler } options with
  | .error e => .aborted e
  | .ok srv => .ran srv l (serveLoop srv l)

/-- ListenAndServe from src/ssh.go lines 76-84: build a Server carrying
addr and the handler, apply the options in order, then srv.ListenAndServe.
Modelled from the spec: srv.ListenAndServe is not under src/; per the spec
it opens a listener on the bound address (listen, which may fail — a bind
failure is a startup error) and then runs the accept loop on it. -/
def ListenAndServe (listen : String → Except Err Listener)
    (serveLoop : Server → Listener → Option Err) (addr : String)
    (handler : Option HandlerFn) (options : List ServerOption) : ServeOutcome :=
  match applyOptions { emptyServer with Addr := addr, Handler := handler } options with
  | .error e => .aborted e
  | .ok srv =>
    match listen srv.Addr with
    | .error e => .aborted e
    | .ok l => .ran srv l (serveLoop srv l)

/-- The spec's reading of ListenAndServe, used as the reference side of the
refinement claim: open a listener on addr, then behave exactly as Serve
with the same handler and options. -/
def listenThenServe (listen : String → Except Err Listener)
    (serveLoop : Server → Listener → Option Err) (addr : String)
    (handler : Option HandlerFn) (options : List ServerOption) : ServeOutcome :=
  match listen addr with
  | .error e => .aborted e
  | .ok l => Serve serveLoop l handler options

/-- An option is address-passive when its behaviour neither reads nor
writes the Addr field: changing the input address changes its output only
in the address. -/
def AddrPassive (o : ServerOption) : Prop :=
  ∀ (s : Server) (a : String),
    o { s with Addr := a } = Except.map (fun s2 => { s2 with Addr := a }) (o s)

/-- A serve loop is address-passive when its behaviour does not depend on
the Addr field of the configured server. -/
def LoopAddrPassive (f : Server → Listener → Option Err) : Prop :=
  ∀ (s : Server) (a : String) (l : Listener), f { s with Addr := a } l = f s l

/-- Modelled from the spec: window-change handling is not under src/ (only
the Window struct is). A resize event carries the new cell dimensions as
unsigned wire values (0 is valid) and replaces the Window atomically;
nothing else mutates a Window. -/
def applyResize (_w : Window) (width height : Nat) : Window :=
  ⟨(width : Int), (height : Int)⟩

/-- Modelled from the spec: a session's window starts at the zero value
and is then mutated only by the resize events received, in order. -/
def windowAfter (events : List (Nat × Nat)) : Window :=
  events.foldl (fun w e => applyResize w e.1 e.2) ⟨0, 0⟩

theorem applyOptions_append (os1 os2 : List ServerOption) (srv : Server) :
    applyOptions srv (os1 ++ os2)
      = match applyOptions srv os1 with
        | .error e => .error e
        | .ok s => applyOptions s os2 := by
  induction os1 generalizing srv with
  | nil => rfl
  | cons o os1 ih =>
    have hc1 : applyOptions srv ((o :: os1) ++ os2)
        = match SetOption srv o with
          | .error e => Except.error e
          | .ok srv2 => applyOptions srv2 (os1 ++ os2) := rfl
    have hc2 : applyOptions srv (o :: os1)
        = match SetOption srv o with
          | .error e => Except.error e
          | .ok srv2 => applyOptions srv2 os1 := rfl
    rw [hc1, hc2]
    cases SetOption srv o with
    | error e => rfl
    | ok s => exact ih s

theorem applyOptions_error_decomp (os : List ServerOption) (srv : Server) (e : Err)
    (h : applyOptions srv os = .error e) :
    ∃ os1 o os2 srv2, os = os1 ++ o :: os2
      ∧ applyOptions srv os1 = .ok srv2 ∧ o srv2 = .error e := by
  induction os generalizing srv with
  | nil => exact absurd h (by simp [applyOptions])
  | cons o os ih =>
    have hc : applyOptions srv (o :: os)
        = match SetOption srv o with
          | .error e => Except.error e
          | .ok srv2 => applyOptions srv2 os := rfl
    rw [hc] at h
    cases ho : SetOption srv o with
    | error e2 =>
      rw [ho] at h
      cases h
      exact ⟨[], o, os, srv, rfl, rfl, ho⟩
    | ok s =>
      rw [ho] at h
      rcases ih s h with ⟨os1, o2, os2, srv2, heq, happ, herr⟩
      refine ⟨o :: os1, o2, os2, srv2, by rw [heq, List.cons_append], ?_, herr⟩
      have hc2 : applyOptions srv (o :: os1)
          = match SetOption srv o with
            | .error e => Except.error e
            | .ok srv2 => applyOptions srv2 os1 := rfl
      rw [hc2, ho]
      exact happ

theorem applyOptions_addr (os : List ServerOption) (hos : ∀ o ∈ os, AddrPassive o)
    (s : Server) (a : String) :
    applyOptions { s with Addr := a } os
      = Except.map (fun s2 => { s2 with Addr := a }) (applyOptions s os) := by
  induction os generalizing s with
  | nil => rfl
  | cons o os ih =>
    have hpass : AddrPassive o := hos o (List.mem_cons_self _ _)
    have htail : ∀ o2 ∈ os, AddrPassive o2 := fun o2 h2 => hos o2 (List.mem_cons_of_mem _ h2)
    have hc1 : applyOptions { s with Addr := a } (o :: os)
        = match o { s with Addr := a } with
          | .error e => Except.error e
          | .ok srv2 => applyOptions srv2 os := rfl
    have hc2 : applyOptions s (o :: os)
        = match o s with
          | .error e => Except.error e
          | .ok srv2 => applyOptions srv2 os := rfl
    rw [hc1, hc2, hpass s a]
    cases o s with
    | error e => rfl
    | ok s2 =>
      show applyOptions { s2 with Addr := a } os = _
      exact ih htail s2

theorem windowAfter_nonneg_aux (events : List (Nat × Nat)) (w : Window)
    (hw : 0 ≤ w.Width ∧ 0 ≤ w.Height) :
    0 ≤ (events.foldl (fun w e => applyResize w e.1 e.2) w).Width
    ∧ 0 ≤ (events.foldl (fun w e => applyResize w e.1 e.2) w).Height := by
  induction events generalizing w with
  | nil => exact hw
  | cons e es ih =>
    exact ih (applyResize w e.1 e.2) ⟨Int.natCast_nonneg _, Int.natCast_nonneg _⟩

/-- C1: KeysEqual returns false whenever either argument is nil, including
when both are nil; absence of a key is never treated as equal to
anything. -/
theorem keysEqual_nil_false (a b : Option PublicKey) (h : a = none ∨ b = none) :
    KeysEqual a b = false := by
  rcases h with rfl | rfl
  · cases b <;> rfl
  · cases a <;> rfl

/-- Witness for C1 at concrete arguments a = none, b = some key. -/
theorem keysEqual_nil_false_witness :
    ((none : Option PublicKey) = none ∨ (some (PublicKey.mk [1, 2]) : Option PublicKey) = none)
    ∧ KeysEqual none (some (PublicKey.mk [1, 2])) = false :=
  ⟨Or.inl rfl, keysEqual_nil_false none (some (PublicKey.mk [1, 2])) (Or.inl rfl)⟩

/-- C2: for non-nil keys the byte comparison is constant time: the number
of byte operations performed by the comparison depends only on the two
serialization lengths, never on where or whether a mismatch occurs (the
instrumented comparison is faithful to the original), and the length check
is in addition to, not instead of, the constant-time body — with equal
lengths the outcome is decided by the byte contents. -/
theorem keysEqual_constant_time (a b a2 b2 : PublicKey)
    (ha : a.Marshal.length = a2.Marshal.length)
    (hb : b.Marshal.length = b2.Marshal.length) :
    (constantTimeCompareInstr a.Marshal b.Marshal).2
        = (constantTimeCompareInstr a2.Marshal b2.Marshal).2
    ∧ (constantTimeCompareInstr a.Marshal b.Marshal).1
        = constantTimeCompare a.Marshal b.Marshal
    ∧ (a.Marshal.length = b.Marshal.length →
        (KeysEqual (some a) (some b) = true ↔ a.Marshal = b.Marshal)) := by
  refine ⟨?_, constantTimeCompareInstr_fst _ _, ?_⟩
  · rw [constantTimeCompareInstr_snd, constantTimeCompareInstr_snd, ha, hb]
  · intro hl
    rw [keysEqual_some_iff]
    constructor
    · rintro ⟨x, y, hx, hy, hm⟩
      cases Option.some.inj hx
      cases Option.some.inj hy
      exact hm
    · intro hm
      exact ⟨a, b, rfl, rfl, hm⟩

/-- Witness for C2 at concrete keys of matching lengths. -/
theorem keysEqual_constant_time_witness :
    (PublicKey.mk [1, 2]).Marshal.length = (PublicKey.mk [7, 7]).Marshal.length
    ∧ (PublicKey.mk [3, 4]).Marshal.length = (PublicKey.mk [7, 8]).Marshal.length
    ∧ ((constantTimeCompareInstr (PublicKey.mk [1, 2]).Marshal (PublicKey.mk [3, 4]).Marshal).2
          = (constantTimeCompareInstr (PublicKey.mk [7, 7]).Marshal (PublicKey.mk [7, 8]).Marshal).2
      ∧ (constantTimeCompareInstr (PublicKey.mk [1, 2]).Marshal (PublicKey.mk [3, 4]).Marshal).1
          = constantTimeCompare (PublicKey.mk [1, 2]).Marshal (PublicKey.mk [3, 4]).Marshal
      ∧ ((PublicKey.mk [1, 2]).Marshal.length = (PublicKey.mk [3, 4]).Marshal.length →
          (KeysEqual (some (PublicKey.mk [1, 2])) (some (PublicKey.mk [3, 4])) = true
            ↔ (PublicKey.mk [1, 2]).Marshal = (PublicKey.mk [3, 4]).Marshal))) :=
  ⟨rfl, rfl, keysEqual_constant_time _ _ _ _ rfl rfl⟩

/-- C4: the Signal vocabulary is exactly the thirteen enumerated tokens,
pairwise distinct, and each enumerated Signal's wire value is exactly its
token string. -/
theorem signal_vocabulary_closed :
    SIGABRT = "ABRT" ∧ SIGALRM = "ALRM" ∧ SIGFPE = "FPE" ∧ SIGHUP = "HUP"
    ∧ SIGILL = "ILL" ∧ SIGINT = "INT" ∧ SIGKILL = "KILL" ∧ SIGPIPE = "PIPE"
    ∧ SIGQUIT = "QUIT" ∧ SIGSEGV = "SEGV" ∧ SIGTERM = "TERM" ∧ SIGUSR1 = "USR1"
    ∧ SIGUSR2 = "USR2"
    ∧ signalVocabulary = ["ABRT", "ALRM", "FPE", "HUP", "ILL", "INT", "KILL",
        "PIPE", "QUIT", "SEGV", "TERM", "USR1", "USR2"]
    ∧ signalVocabulary.length = 13
    ∧ signalVocabulary.Nodup :=
  ⟨rfl, rfl, rfl, rfl, rfl, rfl, rfl, rfl, rfl, rfl, rfl, rfl, rfl, rfl, rfl, by decide⟩

/-- The property claim C5 asserts of the Pty type: a Pty value carries both
its window and an independent terminal-type string, i.e. there are a
terminal-type projection and a constructor from the two components that
the Window projection and the terminal projection invert. -/
def PtyCarriesTerm : Prop :=
  ∃ (term : Pty → String) (mkPty : Window → String → Pty),
    ∀ w t, (mkPty w t).Window = w ∧ term (mkPty w t) = t

/-- C5 counterexample: the source Pty struct holds only a Window, so it has
no terminal-type component: any candidate Pty values for window 80x24 with
terminal types "xterm" and "vt100" are the very same value, so no
projection can recover both strings. -/
theorem pty_carries_term_refuted : ¬ PtyCarriesTerm := by
  rintro ⟨term, mkPty, h⟩
  have g1 : (mkPty ⟨80, 24⟩ "xterm").Window = (mkPty ⟨80, 24⟩ "vt100").Window := by
    rw [(h ⟨80, 24⟩ "xterm").1, (h ⟨80, 24⟩ "vt100").1]
  have e1 : mkPty ⟨80, 24⟩ "xterm" = mkPty ⟨80, 24⟩ "vt100" := by
    calc mkPty ⟨80, 24⟩ "xterm"
        = Pty.mk (mkPty ⟨80, 24⟩ "xterm").Window := rfl
      _ = Pty.mk (mkPty ⟨80, 24⟩ "vt100").Window := by rw [g1]
      _ = mkPty ⟨80, 24⟩ "vt100" := rfl
  have e2 : "xterm" = "vt100" := by
    rw [← (h ⟨80, 24⟩ "xterm").2, ← (h ⟨80, 24⟩ "vt100").2, e1]
  simp at e2

/-- C5 amended: a Pty value consists of a window only — the Pty struct in
this code has no terminal-type field, so building a Pty from a window and
projecting the window are mutually inverse. -/
theorem pty_window_only :
    (∀ p : Pty, Pty.mk p.Window = p) ∧ (∀ w : Window, (Pty.mk w).Window = w) :=
  ⟨fun _ => rfl, fun _ => rfl⟩

/-- C6: every Window reachable in the modelled program — the zero window
mutated only by resize events, each of which atomically replaces the pair
with the unsigned wire dimensions — has nonnegative width and height, and
appending one more resize event changes the window exactly by applying
that resize. -/
theorem window_nonneg_resize_only (events : List (Nat × Nat)) :
    (0 ≤ (windowAfter events).Width ∧ 0 ≤ (windowAfter events).Height)
    ∧ ∀ e : Nat × Nat,
        windowAfter (events ++ [e]) = applyResize (windowAfter events) e.1 e.2 := by
  constructor
  · exact windowAfter_nonneg_aux events ⟨0, 0⟩ ⟨le_refl 0, le_refl 0⟩
  · intro e
    unfold windowAfter
    rw [List.foldl_append]
    rfl

/-- C7: for every valid (non-nil) public key k, KeysEqual(k, k) returns
true. -/
theorem keysEqual_refl (k : PublicKey) : KeysEqual (some k) (some k) = true :=
  (keysEqual_some_iff (some k) (some k)).mpr ⟨k, k, rfl, rfl, rfl⟩

/-- C9: Handle h sets the process-wide DefaultHandler to h and leaves
every other piece of process state unchanged. -/
theorem handle_sets_default_handler (α : Type) (h : Option HandlerFn) (s : PkgState α) :
    (Handle h s).DefaultHandler = h ∧ (Handle h s).rest = s.rest :=
  ⟨rfl, rfl⟩

/-- C10: KeysEqual a b is true exactly when both keys are present and their
marshalled serializations are identical byte sequences; in particular the
function is symmetric, and serializations of different lengths are never
equal. -/
theorem keysEqual_characterization :
    (∀ a b : Option PublicKey,
      KeysEqual a b = true ↔ ∃ x y, a = some x ∧ b = some y ∧ x.Marshal = y.Marshal)
    ∧ (∀ a b : Option PublicKey, KeysEqual a b = KeysEqual b a) := by
  refine ⟨keysEqual_some_iff, ?_⟩
  have hs : ∀ u v : Option PublicKey, KeysEqual u v = true → KeysEqual v u = true := by
    intro u v h
    rcases (keysEqual_some_iff u v).mp h with ⟨x, y, hu, hv, hm⟩
    exact (keysEqual_some_iff v u).mpr ⟨y, x, hv, hu, hm.symm⟩
  intro a b
  by_cases h : KeysEqual a b = true
  · rw [h, hs a b h]
  · have h2 : ¬ KeysEqual b a = true := fun hh => h (hs b a hh)
    rw [Bool.not_eq_true] at h h2
    rw [h, h2]

/-- The reading of claim C3 under which an option error is the only
fatal-at-startup failure path, stated for ListenAndServe: every aborted
startup decomposes as a first failing option. -/
def optionErrorOnlyStartupFailure : Prop :=
  ∀ (listen : String → Except Err Listener) (serveLoop : Server → Listener → Option Err)
    (addr : String) (h : Option HandlerFn) (os : List ServerOption) (e : Err),
    ListenAndServe listen serveLoop addr h os = ServeOutcome.aborted e →
    ∃ os1 o os2 srv, os = os1 ++ o :: os2
      ∧ applyOptions { emptyServer with Addr := addr, Handler := h } os1 = Except.ok srv
      ∧ o srv = Except.error e

/-- C3 counterexample: with no options at all, ListenAndServe still aborts
at startup when opening the listener fails, so an option error is not the
only fatal-at-startup error path. -/
theorem startup_abort_not_only_options : ¬ optionErrorOnlyStartupFailure := by
  intro hcl
  rcases hcl (fun _ => Except.error "bind failed") (fun _ _ => none) "addr" none []
      "bind failed" rfl
    with ⟨os1, o, os2, srv, heq, -, -⟩
  cases os1 <;> simp at heq

/-- C3 amended: options are applied in the order given, and the first
option error is returned, aborting startup — no later option is applied
and serving never begins; for Serve an option error is the only
fatal-at-startup error path, while for ListenAndServe the one other
fatal-at-startup path is a listener bind failure. -/
theorem serve_options_order_abort :
    (∀ (serveLoop : Server → Listener → Option Err) (l : Listener) (h : Option HandlerFn)
        (os1 : List ServerOption) (o : ServerOption) (os2 : List ServerOption)
        (srv : Server) (e : Err),
        applyOptions { emptyServer with Handler := h } os1 = Except.ok srv →
        o srv = Except.error e →
        Serve serveLoop l h (os1 ++ o :: os2) = ServeOutcome.aborted e)
    ∧ (∀ serveLoop l h os e, Serve serveLoop l h os = ServeOutcome.aborted e →
        ∃ os1 o os2 srv, os = os1 ++ o :: os2
          ∧ applyOptions { emptyServer with Handler := h } os1 = Except.ok srv
          ∧ o srv = Except.error e)
    ∧ (∀ listen serveLoop addr h os e,
        ListenAndServe listen serveLoop addr h os = ServeOutcome.aborted e →
        (∃ os1 o os2 srv, os = os1 ++ o :: os2
          ∧ applyOptions { emptyServer with Addr := addr, Handler := h } os1 = Except.ok srv
          ∧ o srv = Except.error e)
        ∨ (∃ srv, applyOptions { emptyServer with Addr := addr, Handler := h } os = Except.ok srv
          ∧ listen srv.Addr = Except.error e)) := by
  refine ⟨?_, ?_, ?_⟩
  · intro serveLoop l h os1 o os2 srv e happ herr
    have habort : applyOptions { emptyServer with Handler := h } (os1 ++ o :: os2)
        = Except.error e := by
      rw [applyOptions_append, happ]
      show applyOptions srv (o :: os2) = Except.error e
      have hc : applyOptions srv (o :: os2)
          = match SetOption srv o with
            | .error e => Except.error e
            | .ok srv2 => applyOptions srv2 os2 := rfl
      rw [hc]
      show (match o srv with
        | .error e => Except.error e
        | .ok srv2 => applyOptions srv2 os2) = Except.error e
      rw [herr]
    simp only [Serve, habort]
  · intro serveLoop l h os e hserve
    cases happ : applyOptions { emptyServer with Handler := h } os with
    | error e2 =>
      simp only [Serve, happ] at hserve
      injection hserve with he
      subst he
      exact applyOptions_error_decomp os _ e2 happ
    | ok srv =>
      simp only [Serve, happ] at hserve
      exact ServeOutcome.noConfusion hserve
  · intro listen serveLoop addr h os e hserve
    cases happ : applyOptions { emptyServer with Addr := addr, Handler := h } os with
    | error e2 =>
      left
      simp only [ListenAndServe, happ] at hserve
      injection hserve with he
      subst he
      exact applyOptions_error_decomp os _ e2 happ
    | ok srv =>
      cases hl : listen srv.Addr with
      | error e2 =>
        right
        simp only [ListenAndServe, happ, hl] at hserve
        injection hserve with he
        subst he
        exact ⟨srv, rfl, hl⟩
      | ok l =>
        simp only [ListenAndServe, happ, hl] at hserve
        exact ServeOutcome.noConfusion hserve

/-- Witness for the amended C3 at a concrete failing option: with one
option that errors, Serve aborts with that error and serving never
begins. -/
theorem serve_options_order_abort_witness :
    applyOptions { emptyServer with Handler := none } ([] : List ServerOption)
        = Except.ok { emptyServer with Handler := none }
    ∧ (fun _ => (Except.error "bad option" : Except Err Server) : ServerOption)
        { emptyServer with Handler := none } = Except.error "bad option"
    ∧ Serve (fun _ _ => none) 0 none
        (([] : List ServerOption)
          ++ (fun _ => (Except.error "bad option" : Except Err Server)) :: [])
      = ServeOutcome.aborted "bad option" :=
  ⟨rfl, rfl,
    serve_options_order_abort.1 (fun _ _ => none) 0 none [] _ [] _ "bad option" rfl rfl⟩

/-- The property claim C8 asserts: for every listen function, serve loop,
address, handler and option list, ListenAndServe returns the same error
value as the composite "open a listener on addr, then Serve with the same
handler and options". -/
def listenAndServeIsPlainWrapper : Prop :=
  ∀ (listen : String → Except Err Listener) (serveLoop : Server → Listener → Option Err)
    (addr : String) (h : Option HandlerFn) (os : List ServerOption),
    (ListenAndServe listen serveLoop addr h os).result
      = (listenThenServe listen serveLoop addr h os).result

/-- C8 counterexample: an option that reads the server's Addr field breaks
the equivalence. With the single option failing exactly when Addr is
empty, ListenAndServe "host" applies it to a server whose Addr is "host"
(it succeeds, serving runs and returns no error), while the composite's
Serve applies it to a fresh server whose Addr is "" (it fails, so startup
aborts with the option error). -/
theorem listenAndServe_not_plain_wrapper : ¬ listenAndServeIsPlainWrapper := by
  intro hcl
  have h := hcl (fun _ => Except.ok 0) (fun _ _ => none) "host" none
    [fun s => if s.Addr = "" then Except.error "empty addr" else Except.ok s]
  have h2 : (none : Option Err) = some "empty addr" := h
  exact Option.noConfusion h2

/-- C8 amended: for options and a serve loop whose behaviour does not
depend on the server's Addr field, and a successful listen on addr,
ListenAndServe returns exactly what the composite "open a listener on
addr, then Serve with the same handler and options" returns. -/
theorem listenAndServe_wraps_serve
    (listen : String → Except Err Listener) (serveLoop : Server → Listener → Option Err)
    (addr : String) (h : Option HandlerFn) (os : List ServerOption) (l : Listener)
    (hos : ∀ o ∈ os, AddrPassive o) (hloop : LoopAddrPassive serveLoop)
    (hl : listen addr = Except.ok l) :
    (ListenAndServe listen serveLoop addr h os).result
      = (listenThenServe listen serveLoop addr h os).result := by
  have hinit : ({ emptyServer with Addr := addr, Handler := h } : Server)
      = { ({ emptyServer with Handler := h } : Server) with Addr := addr } := rfl
  have happ := applyOptions_addr os hos { emptyServer with Handler := h } addr
  cases hres : applyOptions { emptyServer with Handler := h } os with
  | error e =>
    have h2 : applyOptions { emptyServer with Addr := addr, Handler := h } os
        = Except.error e := by
      rw [hinit, happ, hres]
      rfl
    simp only [ListenAndServe, listenThenServe, Serve, h2, hl, hres, ServeOutcome.result]
  | ok srv =>
    have h2 : applyOptions { emptyServer with Addr := addr, Handler := h } os
        = Except.ok { srv with Addr := addr } := by
      rw [hinit, happ, hres]
      rfl
    simp only [ListenAndServe, listenThenServe, Serve, h2, hres, hl, ServeOutcome.result]
    exact hloop srv addr l

/-- Witness for C8 at a concrete listen, serve loop, address and a
non-empty, address-passive option list. -/
theorem listenAndServe_wraps_serve_witness :
    (∀ o ∈ ([fun s => Except.ok { s with PasswordHandler := some 1 }] : List ServerOption),
        AddrPassive o)
    ∧ LoopAddrPassive (fun _ _ => none)
    ∧ (fun _ : String => (Except.ok 5 : Except Err Listener)) "host" = Except.ok 5
    ∧ (ListenAndServe (fun _ => Except.ok 5) (fun _ _ => none) "host" none
          ([fun s => Except.ok { s with PasswordHandler := some 1 }] : List ServerOption)).result
      = (listenThenServe (fun _ => Except.ok 5) (fun _ _ => none) "host" none
          ([fun s => Except.ok { s with PasswordHandler := some 1 }] : List ServerOption)).result := by
  refine ⟨?_, fun s a l => rfl, rfl, ?_⟩
  · intro o ho
    rw [List.mem_singleton] at ho
    subst ho
    intro s a
    rfl
  · exact listenAndServe_wraps_serve _ _ "host" none _ 5
      (by
        intro o ho
        rw [List.mem_singleton] at ho
        subst ho
        intro s a
        rfl)
      (fun s a l => rfl) rfl

end GliderSSH
